import Mathlib

/-!
Verification development for the gc_collect sequencing-QC aggregation tool.

The definitions below are a shallow embedding of the Rust sources:
machine integers (u8/u32/u64/usize) are modelled as Nat, f64 values that
the claims reason about are modelled as Rat, fallible operations
(functions returning anyhow::Result, as well as panicking asserts and
unwraps) are modelled with Except/Option.  Each definition's doc comment
names the Rust item it embeds.
-/

namespace GcCollect

/-- Decidable equality for Except, used to evaluate concrete runs of the
fallible operations. -/
instance {ε α : Type} [DecidableEq ε] [DecidableEq α] : DecidableEq (Except ε α) := fun a b =>
  match a, b with
  | .ok x, .ok y => if h : x = y then .isTrue (by rw [h]) else .isFalse (by simp [h])
  | .error x, .error y => if h : x = y then .isTrue (by rw [h]) else .isFalse (by simp [h])
  | .ok _, .error _ => .isFalse (by simp)
  | .error _, .ok _ => .isFalse (by simp)

/-! ## Base tallies (src/read.rs: TempCounts, Counts) -/

/-- src/read.rs TempCounts: the raw per-base counts of one JSON record.
A, C, G, T are required fields; N and Other are optional. -/
structure TempCounts where
  A : ℕ
  C : ℕ
  G : ℕ
  T : ℕ
  N : Option ℕ
  Other : Option ℕ
deriving DecidableEq

/-- src/read.rs Counts: [u64; 5], a tally for the 4 canonical bases plus
other/unknown, modelled as a function from slot index to count. -/
def Counts : Type := Fin 5 → ℕ

instance : DecidableEq Counts := inferInstanceAs (DecidableEq (Fin 5 → ℕ))

/-- The all-zero tally: Counts::default() = [0; 5]. -/
def Counts.zero : Counts := fun _ => 0

/-- src/read.rs Counts::from_temp_counts: slot layout [A, C, T, G, N + Other]
with each optional field treated as 0 when absent. -/
def Counts.from_temp_counts (t : TempCounts) : Counts :=
  ![t.A, t.C, t.T, t.G, t.N.getD 0 + t.Other.getD 0]

/-- src/read.rs Counts::add: slot-wise accumulation. -/
def Counts.add (x y : Counts) : Counts := fun i => x i + y i

/-- A tally with every slot doubled. -/
def Counts.double (c : Counts) : Counts := fun i => 2 * c i

/-! ## K-mer coverage index (src/kmcv.rs) -/

/-- src/kmcv.rs Target: a genomic interval with inclusive coordinates.
The Rust field named end is called stop here (end is a Lean keyword). -/
structure Target where
  start : ℕ
  stop : ℕ
deriving DecidableEq

/-- src/kmcv.rs Target::size: end + 1 - start. -/
def Target.size (t : Target) : ℕ := t.stop + 1 - t.start

/-- src/kmcv.rs Target::get_start_end: the per-record validation that
end >= start; a violating record is rejected. -/
def Target.get_start_end (start stop : ℕ) : Except String (ℕ × ℕ) :=
  if stop < start then .error "End coordinate of target less than start"
  else .ok (start, stop)

/-- src/kmcv.rs KmcvHeaderCore: the header metadata compared exactly when
merging two k-mer count sets. -/
structure KmcvHeaderCore where
  version : ℕ × ℕ
  kmer_length : ℕ
  max_hits : ℕ
  n_contigs : ℕ
  n_targets : ℕ
  rnd_id : ℕ
deriving DecidableEq

/-- src/kmers.rs KmerCounts: per-dataset k-mer mapping statistics with one
(reads, bases) pair per target. -/
structure KmerCounts where
  kmcv : KmcvHeaderCore
  total_reads : ℕ
  mapped_reads : ℕ
  total_bases : ℕ
  mapped_bases : ℕ
  counts : List (ℕ × ℕ)
deriving DecidableEq

/-- src/kmers.rs KmerCounts::add: errors when the header metadata differs;
the source then asserts equal counts lengths (a panic, modelled as a second
error case) and sums the totals and the per-target pairs element-wise. -/
def KmerCounts.add (x y : KmerCounts) : Except String KmerCounts :=
  if x.kmcv ≠ y.kmcv then
    .error "Cannot merge datasets as kmer files are not compatible"
  else if x.counts.length ≠ y.counts.length then
    .error "assertion failed: counts lengths differ"
  else
    .ok { x with
          total_reads := x.total_reads + y.total_reads,
          total_bases := x.total_bases + y.total_bases,
          mapped_reads := x.mapped_reads + y.mapped_reads,
          mapped_bases := x.mapped_bases + y.mapped_bases,
          counts := x.counts.zipWith (fun p q => (p.1 + q.1, p.2 + q.2)) y.counts }

/-- src/kmers.rs KmerCounts::get_coverage, first step: the per-target
coverage vector, one entry bases / target-size per target (the target size
is looked up through Kmcv::get_target_size). -/
def get_coverage_vec (counts : List (ℕ × ℕ)) (targets : List Target) : List ℚ :=
  counts.enum.map (fun p => ((p.2.2 : ℚ)) / (((targets[p.1]?.map Target.size).getD 0 : ℕ) : ℚ))

/-- src/kmers.rs KmerCounts::get_coverage, fold-80 step: sort the coverage
vector ascending, find the first index i with positive coverage (i = length
when there is none), and return (mean of v[i..]) / v[(2*(l-1))/10] where l
is the length of the whole vector, or 0 when no coverage is positive. -/
def f80_penalty (v0 : List ℚ) : ℚ :=
  let v := v0.insertionSort (· ≤ ·)
  let l := v.length
  let i := v.findIdx (fun c => decide (0 < c))
  if i < l then ((v.drop i).sum / ((l - i : ℕ) : ℚ)) / (v.getD ((2 * (l - 1)) / 10) 0) else 0

/-- Modelled from the claim's words (C2), for comparison with f80_penalty:
restrict to the subset of targets with non-zero coverage, and divide the
subset's mean by the subset entry at rank index 2*(n-1)/10 where n is the
subset size; 0 when the subset is empty. -/
def f80_penalty_claimed (v0 : List ℚ) : ℚ :=
  let pos := (v0.insertionSort (· ≤ ·)).filter (fun c => decide (0 < c))
  let n := pos.length
  if n = 0 then 0 else (pos.sum / (n : ℚ)) / (pos.getD ((2 * (n - 1)) / 10) 0)

/-! ## Identity fields and merge keys (src/cli.rs, src/read.rs: Fli) -/

/-- src/cli/cli_model.rs MergeKey. -/
inductive MergeKey where
  | Default
  | Sample
  | Barcode
  | Library
  | Fli
deriving DecidableEq

/-- src/read.rs Fli: optional identity fields of a dataset. -/
structure Fli where
  sample : Option String
  barcode : Option String
  library : Option String
  flowcell : Option String
  index : Option String
  lane : Option ℕ
  read_end : Option ℕ
deriving DecidableEq

/-- src/read.rs Fli::fli: the combined flowcell_lane_index key string,
available only when all three fields are populated. -/
def Fli.fli (f : Fli) : Option String :=
  match f.flowcell, f.lane, f.index with
  | some fc, some lane, some ix => some (fc ++ "_" ++ toString lane ++ "_" ++ ix)
  | _, _, _ => none

/-- src/read.rs Fli::get_key: the key string of this dataset under a given
merge-key kind (none for Default). -/
def Fli.get_key (f : Fli) (key : MergeKey) : Option String :=
  match key with
  | .Sample => f.sample
  | .Barcode => f.barcode
  | .Library => f.library
  | .Fli => f.fli
  | .Default => none

/-- src/read.rs Fli::find_merge_key: infer the key kind from the populated
identity fields, in priority order sample, barcode, library, fli. -/
def Fli.find_merge_key (f : Fli) : Option MergeKey :=
  if f.sample.isSome then some .Sample
  else if f.barcode.isSome then some .Barcode
  else if f.library.isSome then some .Library
  else if f.flowcell.isSome && f.lane.isSome && f.index.isSome then some .Fli
  else none

/-- src/read.rs Fli::find_common: clear every field on which the two
identities disagree. -/
def Fli.find_common (f other : Fli) : Fli :=
  { sample := if f.sample = other.sample then f.sample else none,
    barcode := if f.barcode = other.barcode then f.barcode else none,
    library := if f.library = other.library then f.library else none,
    flowcell := if f.flowcell = other.flowcell then f.flowcell else none,
    index := if f.index = other.index then f.index else none,
    lane := if f.lane = other.lane then f.lane else none,
    read_end := if f.read_end = other.read_end then f.read_end else none }

/-! ## Rust std::path behaviour used by the loader

DataSet::from_temp_dataset calls Path::extension and Path::file_stem.
These are modelled for ordinary file paths (a path whose last component is
a plain file name): the file name is the part after the last '/', the
extension is the part of the file name after its last '.' provided the
part before that dot is non-empty, and the stem is the part before that
dot (the whole file name when there is no such dot). -/

/-- The characters of the last path component. -/
def rust_file_name_chars (p : String) : List Char :=
  (p.toList.reverse.takeWhile (fun c => c ≠ '/')).reverse

/-- Split a file name into (stem, optional extension) following the Rust
Path::file_stem / Path::extension rules. -/
def rust_split_file (f : List Char) : List Char × Option (List Char) :=
  match f.reverse.dropWhile (fun c => c ≠ '.') with
  | [] => (f, none)
  | _ :: t =>
      if t = [] then (f, none)
      else (t.reverse, some (f.reverse.takeWhile (fun c => c ≠ '.')).reverse)

/-- Path::extension on the model above. -/
def rust_extension (p : String) : Option String :=
  ((rust_split_file (rust_file_name_chars p)).2).map List.asString

/-- Path::file_stem on the model above (none only for an empty file name). -/
def rust_file_stem (p : String) : Option String :=
  if rust_file_name_chars p = [] then none
  else some ((rust_split_file (rust_file_name_chars p)).1.asString)

/-- Modelled from the claim's words (C9), for comparison with the loader:
the output path is the input path with the trailing .gz (3 characters)
removed when the extension is exactly gz, and the input path unchanged
otherwise. -/
def claimed_output_path (p : String) : String :=
  if rust_extension p = some "gz" then (p.toList.take (p.toList.length - 3)).asString else p

/-! ## Datasets (src/read.rs: TempDataSet, DataSet) -/

/-- src/read.rs BisulfiteType. -/
inductive BisulfiteType where
  | none
  | forward
  | reverse
  | nonStranded
deriving DecidableEq

/-- src/read.rs TempDataSet: the JSON-shaped record as parsed.  The
BTreeMap of per-cycle counts is modelled as the list of its (cycle number,
counts) entries in key order, and the gc_hash HashMap as the list of its
(bucket key, count) entries. -/
structure TempDataSet where
  trim : ℕ
  min_qual : ℕ
  max_read_length : ℕ
  bisulfite : BisulfiteType
  fli : Fli
  cts : TempCounts
  per_pos_cts : List (ℕ × TempCounts)
  gc_hash : List (String × ℕ)
  kmer_counts : Option KmerCounts
deriving DecidableEq

/-- src/read.rs DataSet.  The raw GC-bucket mapping is an association list
with (for maps coming from a HashMap) pairwise-distinct keys; the
materialized histogram gc_counts keeps only the parsed (a, b) key and the
observation count (the cached log-Beta constant is a float-only
memoisation that no claim touches). -/
structure DataSet where
  path : String
  trim : ℕ
  min_qual : ℕ
  max_read_length : ℕ
  bisulfite : BisulfiteType
  fli : Fli
  cts : Counts
  per_pos_cts : List Counts
  gc_hash : List (String × ℕ)
  gc_counts : Option (List ((ℕ × ℕ) × ℕ))
  kmer_counts : Option KmerCounts
deriving DecidableEq

/-- src/read.rs DataSet::from_temp_dataset.  The two asserts (the length
invariant and the contiguity of the cycle keys) are panics in the source,
modelled as errors; the path is replaced by its file stem when the
extension is exactly gz (the unwrap of file_stem cannot fail then). -/
def DataSet.from_temp_dataset (t : TempDataSet) (p : String) : Except String DataSet :=
  if ¬ (t.trim ≤ t.max_read_length ∧ t.max_read_length - t.trim = t.per_pos_cts.length) then
    .error "assertion failed: max_read_length and per_pos_cts length"
  else if ¬ (t.per_pos_cts.enum.all (fun q => q.2.1 == q.1 + 1 + t.trim)) then
    .error "assertion failed: per-cycle keys not contiguous from trim+1"
  else
    .ok { path := if rust_extension p = some "gz" then (rust_file_stem p).getD "" else p,
          trim := t.trim,
          min_qual := t.min_qual,
          max_read_length := t.max_read_length,
          bisulfite := t.bisulfite,
          fli := t.fli,
          cts := Counts.from_temp_counts t.cts,
          per_pos_cts := t.per_pos_cts.map (fun kv => Counts.from_temp_counts kv.2),
          gc_hash := t.gc_hash,
          gc_counts := none,
          kmer_counts := t.kmer_counts }

/-- src/read.rs DataSet::check_constants: trim, min_qual, bisulfite kind
and k-mer-count presence must agree for a merge to be allowed. -/
def DataSet.check_constants (d o : DataSet) : Bool :=
  d.trim == o.trim && d.min_qual == o.min_qual && decide (d.bisulfite = o.bisulfite) &&
    ((d.kmer_counts.isSome && o.kmer_counts.isSome) ||
     (d.kmer_counts.isNone && o.kmer_counts.isNone))

/-- Vec::resize_with(n, Default::default) on the per-cycle vector: pad with
zero tallies up to length n (truncating if the vector is longer). -/
def resize_with_zero (v : List Counts) (n : ℕ) : List Counts :=
  v.take n ++ List.replicate (n - v.length) Counts.zero

/-- src/read.rs DataSet::add_counts: accumulate the whole-dataset tally,
resize the per-cycle vector to max_read_length (note: not
max_read_length - trim), and add the other per-cycle tallies pairwise over
the common length, leaving the tail unchanged. -/
def DataSet.add_counts (d o : DataSet) : DataSet :=
  let v := resize_with_zero d.per_pos_cts d.max_read_length
  { d with
    cts := d.cts.add o.cts,
    per_pos_cts := v.zipWith Counts.add o.per_pos_cts ++ v.drop o.per_pos_cts.length }

/-- HashMap::get_mut-or-insert on the raw GC mapping: add v to the entry
with key k, appending a new entry when the key is absent. -/
def gc_upd : List (String × ℕ) → String → ℕ → List (String × ℕ)
  | [], k, v => [(k, v)]
  | (k1, v1) :: t, k, v =>
      if k1 = k then (k1, v1 + v) :: t else (k1, v1) :: gc_upd t k v

/-- Lookup in the raw GC mapping, with 0 for an absent key. -/
def gc_lookup : List (String × ℕ) → String → ℕ
  | [], _ => 0
  | (k1, v1) :: t, k => if k1 = k then v1 else gc_lookup t k

/-- src/read.rs DataSet::add_gc_hash: merge the other raw GC mapping into
this one, summing counts per bucket key. -/
def DataSet.add_gc_hash (d o : DataSet) : DataSet :=
  { d with gc_hash := o.gc_hash.foldl (fun acc kv => gc_upd acc kv.1 kv.2) d.gc_hash }

/-- src/read.rs DataSet::merge: after the compatibility check, widen
max_read_length, common-ize the identity, accumulate counts and the GC
mapping, and merge the k-mer counts when present (the source unwraps the
other k-mer counts there; check_constants guarantees they are present). -/
def DataSet.merge (d o : DataSet) : Except String DataSet :=
  if ¬ d.check_constants o then
    .error "Cannot merge datasets generated with different parameters"
  else
    let d1 := { d with max_read_length := max d.max_read_length o.max_read_length }
    let d2 := { d1 with fli := d1.fli.find_common o.fli }
    let d3 := (d2.add_counts o).add_gc_hash o
    match d3.kmer_counts, o.kmer_counts with
    | some kc, some okc =>
        (kc.add okc).map (fun kc1 => { d3 with kmer_counts := some kc1 })
    | some _, none => .error "panic: unwrap of missing kmer counts"
    | none, _ => .ok d3

/-! ## Aggregation engine (src/merge.rs) -/

/-- First-match lookup in the accumulator map (HashMap String -> DataSet,
modelled as an association list with distinct keys). -/
def ds_lookup : List (String × DataSet) → String → Option DataSet
  | [], _ => none
  | (k1, d) :: t, k => if k1 = k then some d else ds_lookup t k

/-- Replace the entry for an existing key in the accumulator map. -/
def ds_update : List (String × DataSet) → String → DataSet → List (String × DataSet)
  | [], _, _ => []
  | (k1, d1) :: t, k, d => if k1 = k then (k1, d) :: t else (k1, d1) :: ds_update t k d

/-- src/merge.rs get_merge_key: resolve the Default kind from the populated
identity fields, then extract the key string under the resolved kind. -/
def get_merge_key (fli : Fli) (m : MergeKey) : Except String (MergeKey × String) :=
  match (if m = .Default then fli.find_merge_key else some m) with
  | none => .error "Could not determine merge key type for dataset"
  | some m1 =>
    match fli.get_key m1 with
    | none => .error "Could not establish merge key for dataset"
    | some key => .ok (m1, key)

/-- src/merge.rs merge_dataset: look the key up in the accumulator map;
merge into the existing entry when present, otherwise insert the dataset
with its output path rewritten to the key string. -/
def merge_dataset (d : DataSet) (m : MergeKey) (hash : List (String × DataSet)) :
    Except String (MergeKey × List (String × DataSet)) :=
  match get_merge_key d.fli m with
  | .error e => .error e
  | .ok (m1, key) =>
    match ds_lookup hash key with
    | some e => (e.merge d).map (fun r => (m1, ds_update hash key r))
    | none => .ok (m1, hash ++ [(key, { d with path := key })])

/-! ## Statistical engine (src/betabin.rs, src/simple_regression.rs) -/

/-- src/betabin.rs mean_gc over a histogram of ((a, b) key, weight)
entries: the weighted fraction (sum of b*w) / (sum of a*w + sum of b*w).
The assert on a positive denominator is a panic, modelled as none. -/
def mean_gc (cts : List ((ℚ × ℚ) × ℚ)) : Option ℚ :=
  if 0 < (cts.map (fun e => e.1.1 * e.2)).sum + (cts.map (fun e => e.1.2 * e.2)).sum
  then some ((cts.map (fun e => e.1.2 * e.2)).sum /
             ((cts.map (fun e => e.1.1 * e.2)).sum + (cts.map (fun e => e.1.2 * e.2)).sum))
  else none

/-- src/simple_regression.rs RegSums. -/
structure RegSums where
  sum_x : ℚ
  sum_x2 : ℚ
  sum_y : ℚ
  sum_xy : ℚ
deriving DecidableEq

/-- src/simple_regression.rs get_reg_sums. -/
def get_reg_sums (obs : List (ℚ × ℚ)) : RegSums :=
  obs.foldl
    (fun rs p =>
      { sum_x := rs.sum_x + p.1, sum_x2 := rs.sum_x2 + p.1 * p.1,
        sum_y := rs.sum_y + p.2, sum_xy := rs.sum_xy + p.1 * p.2 })
    { sum_x := 0, sum_x2 := 0, sum_y := 0, sum_xy := 0 }

/-- src/simple_regression.rs Coefficient.  The source stores the standard
error; its square is kept here (a square root does not exist in the
rational model, and no claim mentions the standard error itself). -/
structure Coefficient where
  estimate : ℚ
  se_sq : ℚ
  df : ℕ
deriving DecidableEq

/-- src/simple_regression.rs SimpleRegression. -/
structure SimpleRegression where
  intercept : Coefficient
  slope : Coefficient
  residual_ss : ℚ
  residual_df : ℕ
deriving DecidableEq

/-- src/simple_regression.rs simple_regression: reject fewer than 3
observations, reject a non-positive determinant n*sum_x2 - sum_x^2, and
otherwise return the least-squares fit. -/
def simple_regression (obs : List (ℚ × ℚ)) : Except String SimpleRegression :=
  if obs.length < 3 then
    .error "Cannot obtain meaningful regression estimates with <3 observations"
  else if (obs.length : ℚ) * (get_reg_sums obs).sum_x2 - (get_reg_sums obs).sum_x ^ 2 ≤ 0 then
    .error "Numerical error during regression calculations"
  else
    let rs := get_reg_sums obs
    let n : ℚ := obs.length
    let det := n * rs.sum_x2 - rs.sum_x ^ 2
      let b0 := (rs.sum_x2 * rs.sum_y - rs.sum_x * rs.sum_xy) / det
      let b1 := (n * rs.sum_xy - rs.sum_x * rs.sum_y) / det
      let residual_ss := (obs.map (fun p => (p.2 - b0 - p.1 * b1) ^ 2)).sum
      let res_var := residual_ss / (n - 2)
      let df := obs.length - 2
      .ok { intercept := { estimate := b0, se_sq := rs.sum_x2 * res_var / det, df := df },
            slope := { estimate := b1, se_sq := n * res_var / det, df := df },
            residual_ss := residual_ss,
            residual_df := df }

/-! ## Per-dataset analysis outputs (src/process.rs) -/

/-- src/process.rs base_content_regressions, observation list for one base
slot: cycles in the last two thirds of the read, the position normalized
by the retained length, the response the slot count over the sum of the
four canonical slots. -/
def regression_obs (d : DataSet) (ix : Fin 5) : List (ℚ × ℚ) :=
  let ct := d.per_pos_cts
  let l := ct.length
  let x0 := l / 3
  let scale : ℚ := ((l - x0 : ℕ) : ℚ)
  (ct.drop x0).enum.map
    (fun p => (((p.1 : ℕ) : ℚ) / scale,
               ((p.2 ix : ℕ) : ℚ) / (((p.2 0 + p.2 1 + p.2 2 + p.2 3 : ℕ) : ℚ))))

/-- src/process.rs base_content_regressions: skip entirely when fewer than
3 cycles remain after excluding the first third, otherwise fit the four
base slots in order, abandoning the whole computation as soon as one fit
fails (the source loop with its early return is unrolled here; the fits
are pure, so the result is the same). -/
def base_content_regressions (d : DataSet) : Option (List SimpleRegression) :=
  let l := d.per_pos_cts.length
  let x0 := l / 3
  if l - x0 < 3 then none
  else
    match (simple_regression (regression_obs d 0)).toOption,
          (simple_regression (regression_obs d 1)).toOption,
          (simple_regression (regression_obs d 2)).toOption,
          (simple_regression (regression_obs d 3)).toOption with
    | some r0, some r1, some r2, some r3 => some [r0, r1, r2, r3]
    | _, _, _, _ => none

/-- src/process.rs output_per_cycle_bases, header line of the
base_dist.tsv sidecar. -/
def output_per_cycle_bases_header : List String := ["Cycle", "A", "C", "G", "T"]

/-- src/process.rs output_per_cycle_bases, data lines of the base_dist.tsv
sidecar: one row per retained cycle, labelled i + 1 + trim, with the slot
fractions emitted in slot order [0, 1, 3, 2] and each divided by the sum
of the four canonical slots. -/
def output_per_cycle_bases_rows (d : DataSet) : List (ℕ × List ℚ) :=
  d.per_pos_cts.enum.map
    (fun p =>
      let s : ℚ := ((p.2 0 + p.2 1 + p.2 2 + p.2 3 : ℕ) : ℚ)
      (p.1 + 1 + d.trim, ([0, 1, 3, 2] : List (Fin 5)).map (fun k => ((p.2 k : ℕ) : ℚ) / s)))

/-- Modelled from the claim's words (C3), for comparison: the same rows
with the base-fraction columns in slot order [0, 1, 2, 3], which under the
internal layout [A, C, T, G, other] is the order A, C, T, G. -/
def output_per_cycle_bases_rows_claimed (d : DataSet) : List (ℕ × List ℚ) :=
  d.per_pos_cts.enum.map
    (fun p =>
      let s : ℚ := ((p.2 0 + p.2 1 + p.2 2 + p.2 3 : ℕ) : ℚ)
      (p.1 + 1 + d.trim, ([0, 1, 2, 3] : List (Fin 5)).map (fun k => ((p.2 k : ℕ) : ℚ) / s)))

/-! ## Pipeline orchestrator join loops (src/main.rs) -/

/-- src/main.rs check_join: join one worker, log its error when it
returned one, and report whether it failed.  The log is modelled as the
accumulated list of logged error messages. -/
def check_join (logged : List String) (r : Except String Unit) : List String × Bool :=
  match r with
  | .error e => (logged ++ [e], true)
  | .ok _ => (logged, false)

/-- The join-and-aggregate loops of src/main.rs: error = error ||
check_join(handle) over the worker results in join order.  The Rust || is
short-circuiting, so once error is true check_join is no longer called
(the remaining workers are joined by the enclosing thread scope, but
their errors are not logged). -/
def join_workers (rs : List (Except String Unit)) : List String × Bool :=
  rs.foldl (fun st r => if st.2 then st else check_join st.1 r) ([], false)

/-- src/main.rs std_pipeline: join the process workers, then the output
worker. -/
def std_pipeline_join (process_rs : List (Except String Unit)) (output_r : Except String Unit) :
    List String × Bool :=
  join_workers (process_rs ++ [output_r])

/-- src/main.rs merge_pipeline: join the merge worker, then the process
workers, then the output worker. -/
def merge_pipeline_join (merge_r : Except String Unit) (process_rs : List (Except String Unit))
    (output_r : Except String Unit) : List String × Bool :=
  join_workers (merge_r :: (process_rs ++ [output_r]))

/-- The first error in join order, if any. -/
def first_error : List (Except String Unit) → Option String
  | [] => none
  | .error e :: _ => some e
  | .ok _ :: t => first_error t

/-- Total count carried by a bucket key in a raw GC mapping (summing over
duplicate entries; a mapping coming from a HashMap has none). -/
def gc_weight : List (String × ℕ) → String → ℕ
  | [], _ => 0
  | (k1, v) :: t, k => (if k1 = k then v else 0) + gc_weight t k

/-- The dataset produced by merging a dataset (stored in the accumulator
map under the path s) with an identical copy of itself: every tally is
added to itself, the per-cycle vector is resized to max_read_length before
the pairwise addition, and the raw GC mapping is folded into itself. -/
def merge_self_result (d : DataSet) (s : String) : DataSet :=
  { path := s, trim := d.trim, min_qual := d.min_qual,
    max_read_length := max d.max_read_length d.max_read_length,
    bisulfite := d.bisulfite,
    fli := d.fli.find_common d.fli,
    cts := d.cts.add d.cts,
    per_pos_cts :=
      (resize_with_zero d.per_pos_cts (max d.max_read_length d.max_read_length)).zipWith
          Counts.add d.per_pos_cts ++
        (resize_with_zero d.per_pos_cts (max d.max_read_length d.max_read_length)).drop
          d.per_pos_cts.length,
    gc_hash := d.gc_hash.foldl (fun acc kv => gc_upd acc kv.1 kv.2) d.gc_hash,
    gc_counts := d.gc_counts,
    kmer_counts := d.kmer_counts.map (fun kc =>
      { kc with
        total_reads := kc.total_reads + kc.total_reads,
        total_bases := kc.total_bases + kc.total_bases,
        mapped_reads := kc.mapped_reads + kc.mapped_reads,
        mapped_bases := kc.mapped_bases + kc.mapped_bases,
        counts := kc.counts.zipWith (fun p q => (p.1 + q.1, p.2 + q.2)) kc.counts }) }

/-! ## Concrete example inputs used by the evaluation theorems -/

/-- A small per-cycle tally with distinct T and G counts. -/
def tc_small : TempCounts :=
  { A := 1, C := 1, G := 2, T := 1, N := none, Other := none }

/-- An identity with only the sample field populated. -/
def fli_small : Fli :=
  { sample := some "s", barcode := none, library := none, flowcell := none,
    index := none, lane := none, read_end := none }

/-- A one-cycle JSON record (trim 0, max read length 1). -/
def t_small : TempDataSet :=
  { trim := 0, min_qual := 0, max_read_length := 1, bisulfite := .none,
    fli := fli_small, cts := tc_small, per_pos_cts := [(1, tc_small)],
    gc_hash := [], kmer_counts := none }

/-- The dataset the loader produces from t_small under a plain path x. -/
def d_small : DataSet :=
  { path := "x", trim := 0, min_qual := 0, max_read_length := 1,
    bisulfite := .none, fli := fli_small,
    cts := Counts.from_temp_counts tc_small,
    per_pos_cts := [Counts.from_temp_counts tc_small],
    gc_hash := [], gc_counts := none, kmer_counts := none }

/-- A two-cycle JSON record with a non-zero trim (trim 1, max read
length 3, cycles 2 and 3). -/
def c1_t : TempDataSet :=
  { trim := 1, min_qual := 0, max_read_length := 3, bisulfite := .none,
    fli := fli_small, cts := tc_small,
    per_pos_cts := [(2, tc_small), (3, tc_small)],
    gc_hash := [("10:5", 7)], kmer_counts := none }

/-- The dataset the loader produces from c1_t. -/
def c1_d : DataSet :=
  { path := "f.json", trim := 1, min_qual := 0, max_read_length := 3,
    bisulfite := .none, fli := fli_small,
    cts := Counts.from_temp_counts tc_small,
    per_pos_cts := [Counts.from_temp_counts tc_small, Counts.from_temp_counts tc_small],
    gc_hash := [("10:5", 7)], gc_counts := none, kmer_counts := none }

/-- The result of merging c1_d with an identical copy of itself: all
tallies doubled, but the per-cycle vector resized to max_read_length = 3
rather than max_read_length - trim = 2. -/
def c1_merged : DataSet :=
  { path := "f.json", trim := 1, min_qual := 0, max_read_length := 3,
    bisulfite := .none, fli := fli_small,
    cts := (Counts.from_temp_counts tc_small).add (Counts.from_temp_counts tc_small),
    per_pos_cts := [(Counts.from_temp_counts tc_small).add (Counts.from_temp_counts tc_small),
                    (Counts.from_temp_counts tc_small).add (Counts.from_temp_counts tc_small),
                    Counts.zero],
    gc_hash := [("10:5", 14)], gc_counts := none, kmer_counts := none }

/-! ## Helper lemmas -/

theorem sum_map_add {α : Type} (l : List α) (f g : α → ℚ) :
    (l.map (fun e => f e + g e)).sum = (l.map f).sum + (l.map g).sum := by
  induction l with
  | nil => simp
  | cons a t ih => simp only [List.map_cons, List.sum_cons, ih]; ring

theorem join_workers_stop (rs : List (Except String Unit)) (st : List String × Bool)
    (h : st.2 = true) :
    rs.foldl (fun st r => if st.2 then st else check_join st.1 r) st = st := by
  induction rs with
  | nil => rfl
  | cons r t ih => rw [List.foldl_cons, if_pos h]; exact ih

theorem join_workers_cons_ok (u : Unit) (t : List (Except String Unit)) :
    join_workers (.ok u :: t) = join_workers t := by
  unfold join_workers
  rw [List.foldl_cons]
  rfl

theorem join_workers_cons_err (e : String) (t : List (Except String Unit)) :
    join_workers (.error e :: t) = ([e], true) := by
  unfold join_workers
  rw [List.foldl_cons]
  exact join_workers_stop t ([e], true) rfl

theorem join_workers_eq (rs : List (Except String Unit)) :
    join_workers rs = (((first_error rs).map (fun e => [e])).getD [], (first_error rs).isSome) := by
  induction rs with
  | nil => rfl
  | cons r t ih =>
    cases r with
    | ok u => rw [join_workers_cons_ok, ih]; rfl
    | error e => rw [join_workers_cons_err]; rfl

theorem first_error_isSome_iff (rs : List (Except String Unit)) :
    (first_error rs).isSome = true ↔ ∃ r ∈ rs, r.isOk = false := by
  induction rs with
  | nil => simp [first_error]
  | cons r t ih =>
    cases r with
    | ok u => simp [first_error, ih, Except.isOk, Except.toBool]
    | error e => simp [first_error, Except.isOk, Except.toBool]

/-! ## Claim theorems -/

/-- C8: when a dataset is loaded from JSON, the base counts are stored in
the internal slot order [A, C, T, G, N + Other] (T in slot 2 before G in
slot 3), with the optional N and Other fields summed into the fifth slot
and treated as 0 when absent. -/
theorem C8_counts_slot_layout (t : TempCounts) :
    Counts.from_temp_counts t 0 = t.A ∧
    Counts.from_temp_counts t 1 = t.C ∧
    Counts.from_temp_counts t 2 = t.T ∧
    Counts.from_temp_counts t 3 = t.G ∧
    Counts.from_temp_counts t 4 = t.N.getD 0 + t.Other.getD 0 :=
  ⟨rfl, rfl, rfl, rfl, rfl⟩

/-- C10: a validated k-mer target (end not below start) has size
end + 1 - start, hence size 1 when end = start and always size at least 1,
and that size is the denominator of the per-target coverage entry. -/
theorem C10_target_size_valid (s e : ℕ) (h : Target.get_start_end s e = .ok (s, e)) :
    Target.size ⟨s, e⟩ = e + 1 - s ∧
    1 ≤ Target.size ⟨s, e⟩ ∧
    (e = s → Target.size ⟨s, e⟩ = 1) ∧
    ∀ (counts : List (ℕ × ℕ)) (targets : List Target) (ix : ℕ),
      targets[ix]? = some ⟨s, e⟩ → ix < counts.length →
      (get_coverage_vec counts targets).getD ix 0 =
        ((counts.getD ix (0, 0)).2 : ℚ) / ((e + 1 - s : ℕ) : ℚ) := by
  have hse : s ≤ e := by
    by_contra hc
    push_neg at hc
    unfold Target.get_start_end at h
    rw [if_pos hc] at h
    exact absurd h (by simp)
  refine ⟨rfl, ?_, ?_, ?_⟩
  · simp only [Target.size]; omega
  · intro he; simp only [Target.size]; omega
  · intro counts targets ix hT hlen
    unfold get_coverage_vec
    rw [List.getD_eq_getElem?_getD, List.getElem?_map]
    have hc : counts[ix]? = some counts[ix] := List.getElem?_eq_getElem hlen
    have henum : counts.enum[ix]? = some (ix, counts[ix]) := by
      rw [List.getElem?_enum, hc]; rfl
    rw [henum]
    simp only [Option.map_some', Option.getD_some]
    simp [hT, Target.size, List.getD_eq_getElem?_getD, hc]

/-- C10 (witness): the validated target with start 2 and end 5 has size 4
and the stated coverage-denominator property. -/
theorem C10_target_size_valid_witness :
    Target.get_start_end 2 5 = .ok (2, 5) ∧
    (Target.size ⟨2, 5⟩ = 5 + 1 - 2 ∧
     1 ≤ Target.size ⟨2, 5⟩ ∧
     ((5 : ℕ) = 2 → Target.size ⟨2, 5⟩ = 1) ∧
     ∀ (counts : List (ℕ × ℕ)) (targets : List Target) (ix : ℕ),
       targets[ix]? = some ⟨2, 5⟩ → ix < counts.length →
       (get_coverage_vec counts targets).getD ix 0 =
         ((counts.getD ix (0, 0)).2 : ℚ) / ((5 + 1 - 2 : ℕ) : ℚ)) :=
  ⟨by decide, C10_target_size_valid 2 5 (by decide)⟩

/-- C1: the invariant max_read_length - trim = length of the per-cycle
vector holds after construction, but DataSet::merge resizes the per-cycle
vector to max_read_length instead of max_read_length - trim, so merging a
dataset with trim = 1 with an identical copy of itself breaks the
invariant (3 - 1 = 2 but the merged per-cycle vector has length 3). -/
theorem C1_merge_breaks_per_cycle_invariant :
    DataSet.from_temp_dataset c1_t "f.json" = .ok c1_d ∧
    c1_d.max_read_length - c1_d.trim = c1_d.per_pos_cts.length ∧
    c1_d.merge c1_d = .ok c1_merged ∧
    c1_merged.max_read_length - c1_merged.trim ≠ c1_merged.per_pos_cts.length := by
  decide

/-- C4 (counterexample): the join loops use a short-circuiting or, so as
soon as one worker error has been seen, later workers are no longer passed
through check_join and their errors are never logged: with two failing
process workers in the standard pipeline only the first error e1 is
logged, and in the merge pipeline a failing merge worker suppresses the
logging of a failing process worker. -/
theorem C4_logging_counterexample :
    (std_pipeline_join [.error "e1"] (.error "e2")).1 = ["e1"] ∧
    "e2" ∉ (std_pipeline_join [.error "e1"] (.error "e2")).1 ∧
    (std_pipeline_join [.error "e1"] (.error "e2")).2 = true ∧
    (merge_pipeline_join (.error "m") [.error "p"] (.ok ())).1 = ["m"] ∧
    "p" ∉ (merge_pipeline_join (.error "m") [.error "p"] (.ok ())).1 := by
  decide

/-- C4 (amended): in both pipeline modes the run reports failure exactly
when at least one worker returned an error, but only the first error in
join order is logged; workers after the first error are joined by the
enclosing thread scope without their errors being logged. -/
theorem C4_join_amended (mr output_r : Except String Unit)
    (process_rs : List (Except String Unit)) :
    ((std_pipeline_join process_rs output_r).2 = true ↔
      ∃ r ∈ process_rs ++ [output_r], r.isOk = false) ∧
    ((merge_pipeline_join mr process_rs output_r).2 = true ↔
      ∃ r ∈ mr :: (process_rs ++ [output_r]), r.isOk = false) ∧
    (std_pipeline_join process_rs output_r).1 =
      ((first_error (process_rs ++ [output_r])).map (fun e => [e])).getD [] ∧
    (merge_pipeline_join mr process_rs output_r).1 =
      ((first_error (mr :: (process_rs ++ [output_r]))).map (fun e => [e])).getD [] := by
  refine ⟨?_, ?_, ?_, ?_⟩
  · rw [std_pipeline_join, join_workers_eq, first_error_isSome_iff]
  · rw [merge_pipeline_join, join_workers_eq, first_error_isSome_iff]
  · rw [std_pipeline_join, join_workers_eq]
  · rw [merge_pipeline_join, join_workers_eq]

/-- C5: over a histogram with non-negative keys and weights, mean_gc fails
by assertion exactly when the total denominator sum of (a+b)*w vanishes,
and otherwise returns sum of b*w over sum of (a+b)*w, a value in [0, 1]. -/
theorem C5_mean_gc_correct (cts : List ((ℚ × ℚ) × ℚ))
    (h : ∀ e ∈ cts, 0 ≤ e.1.1 ∧ 0 ≤ e.1.2 ∧ 0 ≤ e.2) :
    (mean_gc cts = none ↔ (cts.map (fun e => (e.1.1 + e.1.2) * e.2)).sum = 0) ∧
    ∀ q, mean_gc cts = some q →
      q = (cts.map (fun e => e.1.2 * e.2)).sum /
            (cts.map (fun e => (e.1.1 + e.1.2) * e.2)).sum ∧
      0 ≤ q ∧ q ≤ 1 := by
  have h0 : 0 ≤ (cts.map (fun e => e.1.1 * e.2)).sum := by
    apply List.sum_nonneg
    intro x hx
    obtain ⟨e, he, rfl⟩ := List.mem_map.mp hx
    exact mul_nonneg (h e he).1 (h e he).2.2
  have h1 : 0 ≤ (cts.map (fun e => e.1.2 * e.2)).sum := by
    apply List.sum_nonneg
    intro x hx
    obtain ⟨e, he, rfl⟩ := List.mem_map.mp hx
    exact mul_nonneg (h e he).2.1 (h e he).2.2
  have hsum : (cts.map (fun e => (e.1.1 + e.1.2) * e.2)).sum =
      (cts.map (fun e => e.1.1 * e.2)).sum + (cts.map (fun e => e.1.2 * e.2)).sum := by
    simp only [add_mul]
    exact sum_map_add cts _ _
  constructor
  · unfold mean_gc
    split_ifs with hpos
    · rw [hsum]
      constructor
      · intro hco; exact absurd hco (by simp)
      · intro hz; linarith
    · rw [hsum]
      have hle : (cts.map (fun e => e.1.1 * e.2)).sum + (cts.map (fun e => e.1.2 * e.2)).sum ≤ 0 :=
        not_lt.mp hpos
      have hz : (cts.map (fun e => e.1.1 * e.2)).sum + (cts.map (fun e => e.1.2 * e.2)).sum = 0 :=
        le_antisymm hle (by linarith)
      simp [hz]
  · intro q hq
    unfold mean_gc at hq
    split_ifs at hq with hpos
    · have hq1 : (cts.map (fun e => e.1.2 * e.2)).sum /
          ((cts.map (fun e => e.1.1 * e.2)).sum + (cts.map (fun e => e.1.2 * e.2)).sum) = q :=
        Option.some.inj hq
      refine ⟨?_, ?_, ?_⟩
      · rw [hsum]; exact hq1.symm
      · rw [← hq1]; exact div_nonneg h1 (le_of_lt hpos)
      · rw [← hq1]
        rw [div_le_one hpos]
        linarith

/-- C5 (witness): the single-bucket histogram ((1,1), 1) satisfies the
non-negativity hypothesis and mean_gc behaves as stated on it. -/
theorem C5_mean_gc_correct_witness :
    (∀ e ∈ ([(((1 : ℚ), (1 : ℚ)), (1 : ℚ))] : List ((ℚ × ℚ) × ℚ)),
        0 ≤ e.1.1 ∧ 0 ≤ e.1.2 ∧ 0 ≤ e.2) ∧
    ((mean_gc [(((1 : ℚ), (1 : ℚ)), (1 : ℚ))] = none ↔
        (([(((1 : ℚ), (1 : ℚ)), (1 : ℚ))] : List ((ℚ × ℚ) × ℚ)).map
          (fun e => (e.1.1 + e.1.2) * e.2)).sum = 0) ∧
      ∀ q, mean_gc [(((1 : ℚ), (1 : ℚ)), (1 : ℚ))] = some q →
        q = (([(((1 : ℚ), (1 : ℚ)), (1 : ℚ))] : List ((ℚ × ℚ) × ℚ)).map
              (fun e => e.1.2 * e.2)).sum /
            (([(((1 : ℚ), (1 : ℚ)), (1 : ℚ))] : List ((ℚ × ℚ) × ℚ)).map
              (fun e => (e.1.1 + e.1.2) * e.2)).sum ∧
        0 ≤ q ∧ q ≤ 1) :=
  ⟨by norm_num, C5_mean_gc_correct _ (by norm_num)⟩

theorem isOk_false_iff {ε α : Type} (x : Except ε α) : x.isOk = false ↔ x.toOption = none := by
  cases x <;> simp [Except.isOk, Except.toBool, Except.toOption]

/-- C7: the per-cycle base-drift regression is all-or-none over the four
base slots: the computation yields nothing exactly when fewer than 3
cycles remain after excluding the first third or one of the four fits
fails, it yields exactly four regressions otherwise, and a fit fails
exactly when it has fewer than 3 observations or a non-positive design
determinant. -/
theorem C7_regressions_all_or_none (d : DataSet) :
    (base_content_regressions d = none ↔
      (d.per_pos_cts.length - d.per_pos_cts.length / 3 < 3 ∨
       (simple_regression (regression_obs d 0)).isOk = false ∨
       (simple_regression (regression_obs d 1)).isOk = false ∨
       (simple_regression (regression_obs d 2)).isOk = false ∨
       (simple_regression (regression_obs d 3)).isOk = false)) ∧
    (∀ rs, base_content_regressions d = some rs → rs.length = 4) ∧
    (∀ obs : List (ℚ × ℚ), (simple_regression obs).isOk = false ↔
      (obs.length < 3 ∨
       (obs.length : ℚ) * (get_reg_sums obs).sum_x2 - (get_reg_sums obs).sum_x ^ 2 ≤ 0)) := by
  have hchar : ∀ obs : List (ℚ × ℚ), (simple_regression obs).isOk = false ↔
      (obs.length < 3 ∨
       (obs.length : ℚ) * (get_reg_sums obs).sum_x2 - (get_reg_sums obs).sum_x ^ 2 ≤ 0) := by
    intro obs
    unfold simple_regression
    split_ifs with ha hb
    · simp [Except.isOk, Except.toBool, ha]
    · simp [Except.isOk, Except.toBool, hb]
    · simp [Except.isOk, Except.toBool, ha, hb]
  by_cases hclen : d.per_pos_cts.length - d.per_pos_cts.length / 3 < 3
  · refine ⟨by simp [base_content_regressions, hclen], ?_, hchar⟩
    intro rs hrs
    rw [show base_content_regressions d = none from by simp [base_content_regressions, hclen]]
      at hrs
    exact absurd hrs (by simp)
  · refine ⟨?_, ?_, hchar⟩
    · simp only [isOk_false_iff]
      cases h0 : (simple_regression (regression_obs d 0)).toOption <;>
        cases h1 : (simple_regression (regression_obs d 1)).toOption <;>
          cases h2 : (simple_regression (regression_obs d 2)).toOption <;>
            cases h3 : (simple_regression (regression_obs d 3)).toOption <;>
              simp [base_content_regressions, hclen, h0, h1, h2, h3]
    · intro rs hrs
      cases h0 : (simple_regression (regression_obs d 0)).toOption <;>
        cases h1 : (simple_regression (regression_obs d 1)).toOption <;>
          cases h2 : (simple_regression (regression_obs d 2)).toOption <;>
            cases h3 : (simple_regression (regression_obs d 3)).toOption <;>
              simp_all [base_content_regressions]
      simp [← hrs]

/-- C7 (witness): a dataset with a single retained cycle skips the
regression entirely. -/
theorem C7_regressions_all_or_none_witness : base_content_regressions d_small = none :=
  (C7_regressions_all_or_none d_small).1.mpr (Or.inl (by decide))

theorem sorted_nonneg_drop_findIdx (w : List ℚ) (hs : w.Sorted (· ≤ ·))
    (hn : ∀ x ∈ w, 0 ≤ x) :
    w.drop (w.findIdx (fun c => decide (0 < c))) = w.filter (fun c => decide (0 < c)) := by
  induction w with
  | nil => rfl
  | cons a t ih =>
    rw [List.sorted_cons] at hs
    by_cases ha : 0 < a
    · have hall : ∀ x ∈ a :: t, (fun c => decide (0 < c)) x = true := by
        intro x hx
        rcases List.mem_cons.mp hx with rfl | hx
        · simpa using ha
        · simpa using lt_of_lt_of_le ha (hs.1 x hx)
      have hda : decide (0 < a) = true := by simpa using ha
      rw [List.findIdx_cons, hda]
      show List.drop 0 (a :: t) = _
      rw [List.drop_zero, List.filter_eq_self.mpr hall]
    · have hdec : decide (0 < a) = false := by simpa using ha
      rw [List.findIdx_cons]
      simp only [hdec, cond_false]
      rw [List.drop_succ_cons]
      rw [List.filter_cons]
      simp only [hdec, if_neg (by simp : ¬ (false = true))]
      exact ih hs.2 (fun x hx => hn x (List.mem_cons_of_mem a hx))

/-- C2 (counterexample): on the coverage vector [0,1,2,3,4,5,6] the code
divides the mean of the six non-zero coverages (7/2 after division by the
full-vector rank element v[1] = 1) while the claim's subset-rank formula
divides by the subset element at rank (2*(6-1))/10 = 1, namely 2, giving
7/4: the two disagree. -/
theorem C2_denominator_rank_counterexample :
    f80_penalty [0, 1, 2, 3, 4, 5, 6] = 7 / 2 ∧
    f80_penalty_claimed [0, 1, 2, 3, 4, 5, 6] = 7 / 4 ∧
    f80_penalty [0, 1, 2, 3, 4, 5, 6] ≠ f80_penalty_claimed [0, 1, 2, 3, 4, 5, 6] := by
  have e1 : f80_penalty [0, 1, 2, 3, 4, 5, 6] = 7 / 2 := by
    norm_num [f80_penalty, List.insertionSort, List.orderedInsert, List.findIdx,
      List.findIdx.go, List.getD]
  have e2 : f80_penalty_claimed [0, 1, 2, 3, 4, 5, 6] = 7 / 4 := by
    norm_num [f80_penalty_claimed, List.insertionSort, List.orderedInsert, List.filter,
      List.getD]
  exact ⟨e1, e2, by rw [e1, e2]; norm_num⟩

/-- C2 (amended): for a non-empty coverage vector with non-negative
entries, the fold-80 base penalty is 0 when every coverage is zero, and
otherwise equals the mean of the non-zero coverages divided by the entry
of the full ascending-sorted coverage vector at rank index 2*(l-1)/10,
where l is the total number of targets (not the size of the non-zero
subset). -/
theorem C2_fold80_amended (v : List ℚ) (h1 : ∀ x ∈ v, 0 ≤ x) (h2 : v ≠ []) :
    ((∀ x ∈ v, x = 0) → f80_penalty v = 0) ∧
    ((∃ x ∈ v, 0 < x) →
      f80_penalty v =
        ((v.filter (fun c => decide (0 < c))).sum /
          ((v.filter (fun c => decide (0 < c))).length : ℚ)) /
        ((v.insertionSort (· ≤ ·)).getD ((2 * (v.length - 1)) / 10) 0)) := by
  have hperm : (v.insertionSort (· ≤ ·)).Perm v := List.perm_insertionSort _ v
  have hsort : (v.insertionSort (· ≤ ·)).Sorted (· ≤ ·) := List.sorted_insertionSort _ v
  have hnw : ∀ x ∈ v.insertionSort (· ≤ ·), 0 ≤ x := fun x hx => h1 x (hperm.mem_iff.mp hx)
  constructor
  · intro hz
    have hnone : ∀ x ∈ v.insertionSort (· ≤ ·), (fun c => decide (0 < c)) x = false := by
      intro x hx
      have hx0 : x = 0 := hz x (hperm.mem_iff.mp hx)
      simp [hx0]
    have hidx : (v.insertionSort (· ≤ ·)).findIdx (fun c => decide (0 < c)) =
        (v.insertionSort (· ≤ ·)).length := List.findIdx_eq_length.mpr hnone
    simp only [f80_penalty]
    rw [hidx]
    simp
  · intro hex
    obtain ⟨x, hxv, hxpos⟩ := hex
    have hlt : (v.insertionSort (· ≤ ·)).findIdx (fun c => decide (0 < c)) <
        (v.insertionSort (· ≤ ·)).length :=
      List.findIdx_lt_length.mpr ⟨x, hperm.mem_iff.mpr hxv, by simpa using hxpos⟩
    have hdropf := sorted_nonneg_drop_findIdx (v.insertionSort (· ≤ ·)) hsort hnw
    have hfil : ((v.insertionSort (· ≤ ·)).filter (fun c => decide (0 < c))).Perm
        (v.filter (fun c => decide (0 < c))) := hperm.filter _
    have hlen2 : (v.insertionSort (· ≤ ·)).length -
        (v.insertionSort (· ≤ ·)).findIdx (fun c => decide (0 < c)) =
        (v.filter (fun c => decide (0 < c))).length := by
      rw [← List.length_drop, hdropf, hfil.length_eq]
    simp only [f80_penalty]
    rw [if_pos hlt, hdropf, hfil.sum_eq, hlen2, hperm.length_eq]

/-- C2 (witness): the coverage vector [0, 1] satisfies the hypotheses and
the amended fold-80 characterization holds on it. -/
theorem C2_fold80_amended_witness :
    (∀ x ∈ ([0, 1] : List ℚ), 0 ≤ x) ∧ (([0, 1] : List ℚ) ≠ []) ∧
    ((∀ x ∈ ([0, 1] : List ℚ), x = 0) → f80_penalty [0, 1] = 0) ∧
    ((∃ x ∈ ([0, 1] : List ℚ), 0 < x) →
      f80_penalty [0, 1] =
        ((([0, 1] : List ℚ).filter (fun c => decide (0 < c))).sum /
          ((([0, 1] : List ℚ).filter (fun c => decide (0 < c))).length : ℚ)) /
        ((([0, 1] : List ℚ).insertionSort (· ≤ ·)).getD
          ((2 * (([0, 1] : List ℚ).length - 1)) / 10) 0)) :=
  ⟨by norm_num, by simp,
    (C2_fold80_amended [0, 1] (by norm_num) (by simp)).1,
    (C2_fold80_amended [0, 1] (by norm_num) (by simp)).2⟩

theorem from_temp_dataset_ok (t : TempDataSet) (p : String) (d : DataSet)
    (h : DataSet.from_temp_dataset t p = .ok d) :
    d.trim = t.trim ∧ d.max_read_length = t.max_read_length ∧
    d.per_pos_cts = t.per_pos_cts.map (fun kv => Counts.from_temp_counts kv.2) ∧
    d.path = (if rust_extension p = some "gz" then (rust_file_stem p).getD "" else p) ∧
    d.gc_hash = t.gc_hash ∧ d.cts = Counts.from_temp_counts t.cts ∧
    t.max_read_length - t.trim = t.per_pos_cts.length ∧ t.trim ≤ t.max_read_length := by
  unfold DataSet.from_temp_dataset at h
  split_ifs at h with hA hB hC
  all_goals have hd := Except.ok.inj h
  all_goals subst hd
  · exact ⟨rfl, rfl, rfl, by rw [if_pos hC], rfl, rfl, hA.2, hA.1⟩
  · exact ⟨rfl, rfl, rfl, by rw [if_neg hC], rfl, rfl, hA.2, hA.1⟩

/-- C3 (counterexample): on a one-cycle dataset whose T count is 1 and
whose G count is 2, the third base-fraction column of the base_dist table
is the G fraction 2/5 and the fourth is the T fraction 1/5, so the columns
are in the order A, C, G, T and not, as claimed, A, C, T, G. -/
theorem C3_column_order_counterexample :
    DataSet.from_temp_dataset t_small "x" = .ok d_small ∧
    output_per_cycle_bases_rows d_small = [(1, [1 / 5, 1 / 5, 2 / 5, 1 / 5])] ∧
    output_per_cycle_bases_rows_claimed d_small = [(1, [1 / 5, 1 / 5, 1 / 5, 2 / 5])] ∧
    output_per_cycle_bases_rows d_small ≠ output_per_cycle_bases_rows_claimed d_small := by
  have h1 : DataSet.from_temp_dataset t_small "x" = .ok d_small := by decide
  have h2 : output_per_cycle_bases_rows d_small = [(1, [1 / 5, 1 / 5, 2 / 5, 1 / 5])] := by
    norm_num [output_per_cycle_bases_rows, d_small, tc_small, Counts.from_temp_counts,
      List.enum]
  have h3 : output_per_cycle_bases_rows_claimed d_small = [(1, [1 / 5, 1 / 5, 1 / 5, 2 / 5])] := by
    norm_num [output_per_cycle_bases_rows_claimed, d_small, tc_small, Counts.from_temp_counts,
      List.enum]
  refine ⟨h1, h2, h3, ?_⟩
  rw [h2, h3]
  norm_num

/-- C3 (amended): for every dataset built by the loader, the base_dist
sidecar has header Cycle, A, C, G, T, one row per retained cycle labelled
with its cycle number, and the base-fraction columns are, in this fixed
order, the A, C, G and T fractions of that cycle (each base count over the
sum of the four canonical base counts). -/
theorem C3_base_dist_columns_amended (t : TempDataSet) (p : String) (d : DataSet)
    (h : DataSet.from_temp_dataset t p = .ok d) :
    output_per_cycle_bases_header = ["Cycle", "A", "C", "G", "T"] ∧
    (output_per_cycle_bases_rows d).length = d.per_pos_cts.length ∧
    output_per_cycle_bases_rows d =
      t.per_pos_cts.enum.map
        (fun q =>
          (q.1 + 1 + t.trim,
           [((q.2.2.A : ℕ) : ℚ) / ((q.2.2.A + q.2.2.C + q.2.2.G + q.2.2.T : ℕ) : ℚ),
            ((q.2.2.C : ℕ) : ℚ) / ((q.2.2.A + q.2.2.C + q.2.2.G + q.2.2.T : ℕ) : ℚ),
            ((q.2.2.G : ℕ) : ℚ) / ((q.2.2.A + q.2.2.C + q.2.2.G + q.2.2.T : ℕ) : ℚ),
            ((q.2.2.T : ℕ) : ℚ) / ((q.2.2.A + q.2.2.C + q.2.2.G + q.2.2.T : ℕ) : ℚ)])) := by
  obtain ⟨htrim, hmrl, hppc, hpath, hgc, hcts, hlen, hle⟩ := from_temp_dataset_ok t p d h
  refine ⟨rfl, by simp [output_per_cycle_bases_rows], ?_⟩
  unfold output_per_cycle_bases_rows
  rw [hppc, htrim, List.enum_map, List.map_map]
  apply List.map_congr_left
  intro q hq
  rcases q with ⟨i, cyc, tc⟩
  have hsum : tc.A + tc.C + tc.T + tc.G = tc.A + tc.C + tc.G + tc.T := by omega
  simp only [Function.comp_apply, Prod.map_apply, id_eq, List.map_cons, List.map_nil,
    Counts.from_temp_counts, Matrix.cons_val_zero, Matrix.cons_val_one, Matrix.head_cons,
    Matrix.cons_val_two, Matrix.cons_val_three, Matrix.tail_cons, Matrix.cons_val_four]
  rw [hsum]

/-- C3 (witness): the amended column description holds on the one-cycle
dataset t_small loaded from the path x. -/
theorem C3_base_dist_columns_amended_witness :
    DataSet.from_temp_dataset t_small "x" = .ok d_small ∧
    (output_per_cycle_bases_header = ["Cycle", "A", "C", "G", "T"] ∧
     (output_per_cycle_bases_rows d_small).length = d_small.per_pos_cts.length ∧
     output_per_cycle_bases_rows d_small =
       t_small.per_pos_cts.enum.map
         (fun q =>
           (q.1 + 1 + t_small.trim,
            [((q.2.2.A : ℕ) : ℚ) / ((q.2.2.A + q.2.2.C + q.2.2.G + q.2.2.T : ℕ) : ℚ),
             ((q.2.2.C : ℕ) : ℚ) / ((q.2.2.A + q.2.2.C + q.2.2.G + q.2.2.T : ℕ) : ℚ),
             ((q.2.2.G : ℕ) : ℚ) / ((q.2.2.A + q.2.2.C + q.2.2.G + q.2.2.T : ℕ) : ℚ),
             ((q.2.2.T : ℕ) : ℚ) / ((q.2.2.A + q.2.2.C + q.2.2.G + q.2.2.T : ℕ) : ℚ)]))) :=
  ⟨by decide, C3_base_dist_columns_amended t_small "x" d_small (by decide)⟩

theorem dropWhile_head_false {α : Type} (p : α → Bool) :
    ∀ (l : List α) (c : α) (t : List α), l.dropWhile p = c :: t → p c = false := by
  intro l
  induction l with
  | nil => intro c t h; simp [List.dropWhile] at h
  | cons a l ih =>
    intro c t h
    rw [List.dropWhile_cons] at h
    split_ifs at h with hpa
    · exact ih c t h
    · cases h
      simpa using hpa

theorem rust_split_file_spec (f stem ext : List Char)
    (h : rust_split_file f = (stem, some ext)) :
    f = stem ++ '.' :: ext := by
  cases hrest : f.reverse.dropWhile (fun c => decide (c ≠ '.')) with
  | nil =>
    have hval : rust_split_file f = (f, none) := by
      unfold rust_split_file
      rw [hrest]
    rw [hval] at h
    simp at h
  | cons c t =>
    have hval : rust_split_file f =
        (if t = [] then (f, none)
         else (t.reverse, some (f.reverse.takeWhile (fun c => decide (c ≠ '.'))).reverse)) := by
      unfold rust_split_file
      rw [hrest]
    rw [hval] at h
    by_cases ht : t = []
    · rw [if_pos ht] at h; simp at h
    · rw [if_neg ht] at h
      have h1 : t.reverse = stem := congrArg Prod.fst h
      have h2 : (f.reverse.takeWhile (fun c => decide (c ≠ '.'))).reverse = ext := by
        have := congrArg Prod.snd h
        simpa using this
      have hc : c = '.' := by
        have := dropWhile_head_false (fun c => decide (c ≠ '.')) f.reverse c t hrest
        simpa using this
      have hsplit : f.reverse.takeWhile (fun c => decide (c ≠ '.')) ++ (c :: t) = f.reverse := by
        rw [← hrest]
        exact List.takeWhile_append_dropWhile _ _
      calc f = f.reverse.reverse := (List.reverse_reverse f).symm
        _ = ((f.reverse.takeWhile (fun c => decide (c ≠ '.'))) ++ (c :: t)).reverse := by
              rw [hsplit]
        _ = (c :: t).reverse ++ (f.reverse.takeWhile (fun c => decide (c ≠ '.'))).reverse := by
              rw [List.reverse_append]
        _ = t.reverse ++ [c] ++ (f.reverse.takeWhile (fun c => decide (c ≠ '.'))).reverse := by
              rw [List.reverse_cons]
        _ = stem ++ '.' :: ext := by rw [h1, h2, hc]; simp

/-- C9 (counterexample): for the input path dir/a.gz (extension exactly
gz) the loader sets the output path to the file stem a, dropping the
directory component, while the claim's phrase "the path with the trailing
.gz removed" would give dir/a. -/
theorem C9_directory_counterexample :
    DataSet.from_temp_dataset t_small "dir/a.gz" = .ok { d_small with path := "a" } ∧
    claimed_output_path "dir/a.gz" = "dir/a" ∧
    ({ d_small with path := "a" } : DataSet).path ≠ claimed_output_path "dir/a.gz" := by
  decide

/-- C9 (amended): when the input path's extension is exactly gz the loaded
dataset's output path is the file stem of the last path component (the
file name with the trailing .gz removed, any directory prefix dropped);
for any other path the input path is used unchanged. -/
theorem C9_output_path_amended (p : String) (t : TempDataSet) (d : DataSet)
    (h : DataSet.from_temp_dataset t p = .ok d) :
    (rust_extension p = some "gz" →
      ∃ stem : String, rust_file_stem p = some stem ∧ d.path = stem ∧
        (rust_file_name_chars p).asString = stem ++ ".gz") ∧
    (rust_extension p ≠ some "gz" → d.path = p) := by
  obtain ⟨-, -, -, hpath, -, -, -, -⟩ := from_temp_dataset_ok t p d h
  constructor
  · intro hgz
    have hgz0 := hgz
    unfold rust_extension at hgz
    cases hsplit : (rust_split_file (rust_file_name_chars p)).2 with
    | none => rw [hsplit] at hgz; simp at hgz
    | some extC =>
      rw [hsplit] at hgz
      simp only [Option.map_some', Option.some.injEq] at hgz
      have hext : extC = ['g', 'z'] := by
        have := congrArg String.data hgz
        simpa [List.asString] using this
      set stemC := (rust_split_file (rust_file_name_chars p)).1 with hstem
      have hpair : rust_split_file (rust_file_name_chars p) = (stemC, some extC) := by
        rw [hstem, ← hsplit]
      have hfc := rust_split_file_spec _ _ _ hpair
      have hne : rust_file_name_chars p ≠ [] := by
        intro hnil
        rw [hnil] at hfc
        exact absurd hfc.symm (by simp)
      refine ⟨stemC.asString, ?_, ?_, ?_⟩
      · unfold rust_file_stem
        rw [if_neg hne]
      · rw [hpath, if_pos hgz0]
        unfold rust_file_stem
        rw [if_neg hne]
        rfl
      · rw [hfc, hext]
        rfl
  · intro hne
    rw [hpath, if_neg hne]

/-- C9 (witness): on the path b.gz the loader produces the stem b. -/
theorem C9_output_path_amended_witness :
    DataSet.from_temp_dataset t_small "b.gz" = .ok { d_small with path := "b" } ∧
    ((rust_extension "b.gz" = some "gz" →
      ∃ stem : String, rust_file_stem "b.gz" = some stem ∧
        ({ d_small with path := "b" } : DataSet).path = stem ∧
        (rust_file_name_chars "b.gz").asString = stem ++ ".gz") ∧
     (rust_extension "b.gz" ≠ some "gz" →
        ({ d_small with path := "b" } : DataSet).path = "b.gz")) :=
  ⟨by decide,
    C9_output_path_amended "b.gz" t_small { d_small with path := "b" } (by decide)⟩

theorem gc_lookup_upd (l : List (String × ℕ)) (ki : String) (v : ℕ) (k : String) :
    gc_lookup (gc_upd l ki v) k = gc_lookup l k + (if ki = k then v else 0) := by
  induction l with
  | nil =>
    by_cases hk : ki = k <;> simp [gc_upd, gc_lookup, hk]
  | cons a l ih =>
    rcases a with ⟨k1, v1⟩
    by_cases hk : k1 = ki
    · subst hk
      by_cases hk2 : k1 = k
      · subst hk2; simp [gc_upd, gc_lookup]
      · simp [gc_upd, gc_lookup, hk2]
    · by_cases hk2 : k1 = k
      · subst hk2
        simp [gc_upd, gc_lookup, hk, show ¬ (ki = k1) from fun hh => hk hh.symm]
      · simp [gc_upd, gc_lookup, hk, hk2, ih]

theorem gc_lookup_fold (o : List (String × ℕ)) :
    ∀ (s : List (String × ℕ)) (k : String),
      gc_lookup (o.foldl (fun acc kv => gc_upd acc kv.1 kv.2) s) k =
        gc_lookup s k + gc_weight o k := by
  induction o with
  | nil => intro s k; simp [gc_weight]
  | cons a o ih =>
    intro s k
    rcases a with ⟨k1, v1⟩
    rw [List.foldl_cons, ih, gc_lookup_upd]
    simp only [gc_weight]
    omega

theorem gc_weight_zero_of_not_mem (k : String) :
    ∀ (l : List (String × ℕ)), k ∉ l.map Prod.fst → gc_weight l k = 0 := by
  intro l
  induction l with
  | nil => intro _; rfl
  | cons a l ih =>
    rcases a with ⟨k1, v1⟩
    intro hmem
    simp only [List.map_cons, List.mem_cons] at hmem
    push_neg at hmem
    simp only [gc_weight]
    rw [ih hmem.2]
    simp [show ¬ (k1 = k) from fun hh => hmem.1 hh.symm]

theorem gc_weight_eq_lookup (k : String) :
    ∀ (g : List (String × ℕ)), (g.map Prod.fst).Nodup → gc_weight g k = gc_lookup g k := by
  intro g
  induction g with
  | nil => intro _; rfl
  | cons a g ih =>
    rcases a with ⟨k1, v1⟩
    intro hnd
    simp only [List.map_cons, List.nodup_cons] at hnd
    by_cases hk : k1 = k
    · subst hk
      simp only [gc_weight, gc_lookup, if_pos rfl]
      rw [gc_weight_zero_of_not_mem k1 g hnd.1]
      simp
    · simp only [gc_weight, gc_lookup, if_neg hk]
      rw [ih hnd.2]
      simp

theorem zipWith_add_self (l : List Counts) :
    l.zipWith Counts.add l = l.map (fun c => c.add c) := by
  induction l with
  | nil => rfl
  | cons a l ih => simp [List.zipWith_cons_cons, ih]

theorem find_common_self (f : Fli) : f.find_common f = f := by
  simp [Fli.find_common]

theorem check_constants_self (d : DataSet) (s : String) :
    ({ d with path := s } : DataSet).check_constants d = true := by
  simp only [DataSet.check_constants]
  cases d.kmer_counts <;> simp

theorem merge_self_eq (d dp : DataSet) (s : String) (hdp : dp = { d with path := s }) :
    DataSet.merge dp d = .ok (merge_self_result d s) := by
  subst hdp
  unfold DataSet.merge
  rw [check_constants_self d s]
  rw [if_neg (by simp)]
  cases hk : d.kmer_counts with
  | none =>
    simp only [DataSet.add_counts, DataSet.add_gc_hash, merge_self_result, hk,
      Option.map_none']
  | some kc =>
    simp only [DataSet.add_counts, DataSet.add_gc_hash, merge_self_result, hk,
      Option.map_some']
    simp [KmerCounts.add, Except.map]

theorem find_merge_key_ne_default (f : Fli) (mk : MergeKey)
    (h : f.find_merge_key = some mk) : mk ≠ .Default := by
  unfold Fli.find_merge_key at h
  split_ifs at h <;> simp_all <;> (subst h; decide)

theorem get_merge_key_stable (f : Fli) (m m1 : MergeKey) (key : String)
    (h : get_merge_key f m = .ok (m1, key)) :
    get_merge_key f m1 = .ok (m1, key) := by
  by_cases hm : m = .Default
  · subst hm
    unfold get_merge_key at h
    rw [if_pos rfl] at h
    cases hf : f.find_merge_key with
    | none => rw [hf] at h; exact Except.noConfusion h
    | some m2 =>
      rw [hf] at h
      cases hg : f.get_key m2 with
      | none =>
        simp only [hg] at h
        exact Except.noConfusion h
      | some k =>
        simp only [hg, Except.ok.injEq, Prod.mk.injEq] at h
        obtain ⟨rfl, rfl⟩ := h
        have hnd : m2 ≠ .Default := find_merge_key_ne_default f m2 hf
        unfold get_merge_key
        rw [if_neg hnd]
        simp only [hg]
  · unfold get_merge_key at h
    rw [if_neg hm] at h
    cases hg : f.get_key m with
    | none =>
      simp only [hg] at h
      exact Except.noConfusion h
    | some k =>
      simp only [hg, Except.ok.injEq, Prod.mk.injEq] at h
      obtain ⟨rfl, rfl⟩ := h
      unfold get_merge_key
      rw [if_neg hm]
      simp only [hg]

/-- C6: merging a dataset that yields a merge key with an identical copy
of itself through the aggregation engine (insert, then merge into the
occupied entry) doubles every whole-dataset Counts slot, doubles every
per-cycle Counts slot (the per-cycle vector additionally gains trim
trailing zero slots, the resize noted in C1), doubles every raw GC-bucket
count, and leaves max_read_length unchanged. -/
theorem C6_self_merge_doubles (d : DataSet) (m m1 : MergeKey) (key : String)
    (hk : get_merge_key d.fli m = .ok (m1, key))
    (hinv : d.per_pos_cts.length = d.max_read_length - d.trim)
    (htr : d.trim ≤ d.max_read_length)
    (hnd : (d.gc_hash.map Prod.fst).Nodup) :
    merge_dataset d m [] = .ok (m1, [(key, { d with path := key })]) ∧
    merge_dataset d m1 [(key, { d with path := key })] =
      .ok (m1, [(key, merge_self_result d key)]) ∧
    (merge_self_result d key).max_read_length = d.max_read_length ∧
    (∀ i : Fin 5, (merge_self_result d key).cts i = 2 * d.cts i) ∧
    (merge_self_result d key).per_pos_cts =
      d.per_pos_cts.map Counts.double ++ List.replicate d.trim Counts.zero ∧
    (∀ k : String, gc_lookup (merge_self_result d key).gc_hash k =
      2 * gc_lookup d.gc_hash k) := by
  have hk1 := get_merge_key_stable d.fli m m1 key hk
  refine ⟨?_, ?_, ?_, ?_, ?_, ?_⟩
  · unfold merge_dataset
    rw [hk]
    simp [ds_lookup]
  · unfold merge_dataset
    rw [hk1]
    have hl : ds_lookup [(key, { d with path := key })] key =
        some { d with path := key } := by
      simp [ds_lookup]
    simp only [hl]
    rw [merge_self_eq d _ key rfl]
    simp [ds_update, Except.map]
  · simp [merge_self_result]
  · intro i
    simp [merge_self_result, Counts.add, two_mul]
  · simp only [merge_self_result]
    have hlen : d.per_pos_cts.length ≤ max d.max_read_length d.max_read_length := by
      rw [max_self]; omega
    have hres : resize_with_zero d.per_pos_cts (max d.max_read_length d.max_read_length) =
        d.per_pos_cts ++ List.replicate d.trim Counts.zero := by
      unfold resize_with_zero
      rw [List.take_of_length_le hlen]
      congr 1
      rw [max_self]
      congr 1
      omega
    rw [hres]
    have hzip : (d.per_pos_cts ++ List.replicate d.trim Counts.zero).zipWith Counts.add
        d.per_pos_cts = d.per_pos_cts.zipWith Counts.add d.per_pos_cts := by
      have := List.zipWith_append Counts.add d.per_pos_cts
        (List.replicate d.trim Counts.zero) d.per_pos_cts ([] : List Counts) rfl
      simpa using this
    rw [hzip, zipWith_add_self, List.drop_left]
    congr 1
    apply List.map_congr_left
    intro c _
    funext i
    simp [Counts.add, Counts.double, two_mul]
  · intro k
    simp only [merge_self_result]
    rw [gc_lookup_fold, gc_weight_eq_lookup k d.gc_hash hnd]
    omega

/-- C6 (witness): the two-cycle dataset c1_d (sample s, trim 1) satisfies
the hypotheses and self-merging it through the aggregation engine behaves
as stated. -/
theorem C6_self_merge_doubles_witness :
    get_merge_key c1_d.fli .Default = .ok (.Sample, "s") ∧
    c1_d.per_pos_cts.length = c1_d.max_read_length - c1_d.trim ∧
    c1_d.trim ≤ c1_d.max_read_length ∧
    (c1_d.gc_hash.map Prod.fst).Nodup ∧
    (merge_dataset c1_d .Default [] = .ok (.Sample, [("s", { c1_d with path := "s" })]) ∧
     merge_dataset c1_d .Sample [("s", { c1_d with path := "s" })] =
       .ok (.Sample, [("s", merge_self_result c1_d "s")]) ∧
     (merge_self_result c1_d "s").max_read_length = c1_d.max_read_length ∧
     (∀ i : Fin 5, (merge_self_result c1_d "s").cts i = 2 * c1_d.cts i) ∧
     (merge_self_result c1_d "s").per_pos_cts =
       c1_d.per_pos_cts.map Counts.double ++ List.replicate c1_d.trim Counts.zero ∧
     (∀ k : String, gc_lookup (merge_self_result c1_d "s").gc_hash k =
       2 * gc_lookup c1_d.gc_hash k)) :=
  ⟨by decide, by decide, by decide, by decide,
    C6_self_merge_doubles c1_d .Default .Sample "s" (by decide) (by decide) (by decide)
      (by decide)⟩

end GcCollect
